import Mathlib

/-!
# Open3D nearest-neighbour core: `NanoFlann.h` / `NearestNeighbor.h`

Part I embeds what the two headers define: the `Metric` enumeration, the `Adaptor`
point-set view, the compile-time metric dispatch `SelectNanoflannAdaptor`, and the
`NanoFlann` class with its `KDTree_t` typedef.

Part II models the search operations, whose bodies are not part of the headers, from
the design specification (KD-tree build, branch-and-bound queries, result packing).

Machine integers are natural numbers / integers with explicit reduction modulo `2^64`
where the C++ arithmetic is done in `size_t`.
-/

namespace Open3D

/-! ## Part I: the headers -/

/-- `enum Metric { L1, L2, Linf };` -/
inductive Metric where
  | L1
  | L2
  | Linf
  deriving DecidableEq, Repr

/-- Integer value of an enumerator (`L1 = 0`, `L2 = 1`, `Linf = 2`), as used for the
`int METRIC` template argument. -/
def Metric.toInt : Metric → Int
  | .L1 => 0
  | .L2 => 1
  | .Linf => 2

/-- Number of values of `size_t` (64-bit unsigned). -/
def SIZE_T_MOD : Nat := 2 ^ 64

/-- Conversion of an `int` to `size_t` (usual arithmetic conversion: reduction modulo
`2^64`). -/
def toSizeT (i : Int) : Nat := (i % (SIZE_T_MOD : Int)).toNat

/-- `class Adaptor<T>`: the three private fields. `data` is the memory that the
`const T *` points to, as the sequence of elements starting at the pointer. -/
structure Adaptor (T : Type) where
  num_points : Nat
  dimension : Int
  data : List T

/-- Constructor `Adaptor(size_t num_points, int dimension, const T *const data)`:
stores its three arguments. -/
def Adaptor.new {T : Type} (num_points : Nat) (dimension : Int) (data : List T) :
    Adaptor T :=
  { num_points := num_points, dimension := dimension, data := data }

/-- `kdtree_get_point_count() const { return num_points; }`, returning the result and
the adaptor after the call. -/
def Adaptor.kdtree_get_point_count {T : Type} (a : Adaptor T) : Nat × Adaptor T :=
  (a.num_points, a)

/-- The subscript `idx * dimension + dim` of `kdtree_get_pt`, evaluated in `size_t`:
`dimension` is converted to `size_t`, product and sum wrap modulo `2^64`. -/
def Adaptor.offset {T : Type} (a : Adaptor T) (idx dim : Nat) : Nat :=
  ((idx * toSizeT a.dimension) % SIZE_T_MOD + dim) % SIZE_T_MOD

/-- `kdtree_get_pt(idx, dim) const { return data[idx * dimension + dim]; }`. A read
outside the memory behind `data` has no defined value (`none`). Returns the result and
the adaptor after the call. -/
def Adaptor.kdtree_get_pt {T : Type} (a : Adaptor T) (idx dim : Nat) :
    Option T × Adaptor T :=
  (a.data[a.offset idx dim]?, a)

/-- `template <class BBOX> bool kdtree_get_bbox(BBOX &) const { return false; }`:
returns the result, the (untouched) box passed by reference, and the adaptor. -/
def Adaptor.kdtree_get_bbox {T BBOX : Type} (a : Adaptor T) (bb : BBOX) :
    Bool × BBOX × Adaptor T :=
  (false, bb, a)

/-- The two nanoflann distance adaptors the header refers to. -/
inductive NanoflannDistance where
  | L1_Adaptor
  | L2_Adaptor
  deriving DecidableEq, Repr

/-- `template <int METRIC, class T> struct SelectNanoflannAdaptor`: the member typedef
`Adaptor_t`, when the selected (partial) specialisation has one. The primary template
is `{}` and has none; the specialisations for `L2` and `L1` define it. -/
def SelectNanoflannAdaptor (METRIC : Int) : Option NanoflannDistance :=
  if METRIC = Metric.L2.toInt then some NanoflannDistance.L2_Adaptor
  else if METRIC = Metric.L1.toInt then some NanoflannDistance.L1_Adaptor
  else none

/-- Row `idx` of a row-major buffer with rows of `D` elements. -/
def rowMajorPoint {T : Type} (buf : List T) (D idx : Nat) : List T :=
  (buf.drop (idx * D)).take D

/-- Validity of a (point, coordinate) pair for an adaptor. -/
def Adaptor.ValidCoord {T : Type} (a : Adaptor T) (idx dim : Nat) : Prop :=
  idx < a.num_points ∧ (dim : Int) < a.dimension

/-! ## Part II: the search operations, from the design specification -/

/-- Modelled from the spec: `core::Tensor` (declared in `open3d/core/Tensor.h`, which
is not among the sources). Only its contract matters: a contiguous row-major block of
`rows * cols` values together with its shape. -/
structure Tensor (α : Type) where
  rows : Nat
  cols : Nat
  data : List α

/-- Modelled from the spec: the error taxonomy of the public entry points (the
function bodies that raise them are not among the sources). -/
inductive Error where
  | InvalidArgument
  | NotBuilt
  | InternalError
  deriving DecidableEq, Repr

/-- Modelled from the spec: row `j` of a dense `rows x cols` tensor (`Tensor.h` is not among the
sources). -/
def Tensor.row {α : Type} (t : Tensor α) (j : Nat) : List α :=
  rowMajorPoint t.data t.cols j

/-- Modelled from the spec: the PointSetView of a tensor (the body of `SetTensorData`,
which creates it, is not among the sources): an `Adaptor` over the tensor buffer. -/
def Tensor.view {α : Type} (t : Tensor α) : Adaptor α :=
  Adaptor.new t.rows (t.cols : Int) t.data

/-- Modelled from the spec: coordinate `d` of point `i` of a tensor (the code reading the
points is not among the sources), read through the adaptor with `kdtree_get_pt`; a read
outside the buffer yields 0. -/
def Tensor.coord {α : Type} [Zero α] (t : Tensor α) (i d : Nat) : α :=
  ((t.view.kdtree_get_pt i d).1).getD 0

section Search

variable {α : Type} [LinearOrderedRing α]

/-- Modelled from the spec: absolute difference of two coordinates (part of the distance
functors, which are not among the sources). -/
def absDiff (x y : α) : α := if x ≤ y then y - x else x - y

/-- Modelled from the spec: distance from a coordinate to the interval `[lo, hi]` of a bounding
box on one axis (part of the pruning bound, not among the sources). -/
def axisGap (x : α) (b : α × α) : α :=
  if x < b.1 then b.1 - x else if b.2 < x then x - b.2 else 0

/-- Modelled from the spec: per-axis contribution of a (non-negative) coordinate difference
(part of the distance functors, not among the sources). For `L2` the value
carried is the square, so an `L2` distance is represented by the squared Euclidean
distance, which orders points exactly as the Euclidean distance does. -/
def Metric.axisCost (m : Metric) (g : α) : α :=
  match m with
  | .L2 => g * g
  | _ => g

/-- Modelled from the spec: how the per-axis contributions are combined (part of the distance
functors, not among the sources): sum for `L1` and `L2`, maximum for `Linf`. -/
def Metric.combine (m : Metric) (l : List α) : α :=
  match m with
  | .Linf => l.foldr max 0
  | _ => l.sum

/-- Modelled from the spec: the DistanceMetric family (the nanoflann distance functors
are not among the sources): distance between two `D`-dimensional points given by
their coordinate functions. -/
def Metric.distance (m : Metric) (D : Nat) (q p : Nat → α) : α :=
  m.combine ((List.range D).map fun d => m.axisCost (absDiff (q d) (p d)))

/-- Modelled from the spec: distance from a query to an axis-aligned bounding box
(the pruning bound of the branch-and-bound traversal). -/
def Metric.boxDistance (m : Metric) (D : Nat) (q : Nat → α) (bb : List (α × α)) : α :=
  m.combine ((List.range D).map fun d => m.axisCost (axisGap (q d) (bb.getD d (0, 0))))

/-- Modelled from the spec: a radius in the representation of `Metric.distance` (squared for
`L2`, so that `distance <= radius` is tested exactly); the radius test is not among the
sources. -/
def Metric.radiusBound (m : Metric) (r : α) : α := m.axisCost r

/-- Modelled from the spec: smallest coordinate `d` among the points `idxs` (bounding-box scan
of the builder, not among the sources). -/
def coordMin (P : Nat → Nat → α) (d : Nat) : List Nat → α
  | [] => 0
  | i :: is => is.foldr (fun j acc => min (P j d) acc) (P i d)

/-- Modelled from the spec: largest coordinate `d` among the points `idxs` (bounding-box scan
of the builder, not among the sources). -/
def coordMax (P : Nat → Nat → α) (d : Nat) : List Nat → α
  | [] => 0
  | i :: is => is.foldr (fun j acc => max (P j d) acc) (P i d)

/-- Modelled from the spec: axis-aligned bounding box of the points `idxs`, found by one scan per
axis (the builder is not among the sources). -/
def boundingBox (P : Nat → Nat → α) (D : Nat) (idxs : List Nat) : List (α × α) :=
  (List.range D).map fun d => (coordMin P d idxs, coordMax P d idxs)

/-- Modelled from the spec: coordinate spread of a box along axis `d` (build heuristic, not among
the sources). -/
def spread (bb : List (α × α)) (d : Nat) : α :=
  (bb.getD d (0, 0)).2 - (bb.getD d (0, 0)).1

/-- Modelled from the spec: the split dimension (build heuristic, not among the sources): the
axis of maximum coordinate spread, the lowest such axis on ties. -/
def splitDimension (D : Nat) (bb : List (α × α)) : Nat :=
  (List.range D).foldl (fun best d => if spread bb best < spread bb d then d else best) 0

/-- Modelled from the spec: order of the partition step of the builder (not among the sources):
by coordinate `d`, ties by ascending point index. -/
def coordLe (P : Nat → Nat → α) (d : Nat) (i j : Nat) : Prop :=
  P i d < P j d ∨ (P i d = P j d ∧ i ≤ j)

instance coordLe.decidable (P : Nat → Nat → α) (d : Nat) : DecidableRel (coordLe P d) :=
  fun i j => by unfold coordLe; exact inferInstance

/-- Modelled from the spec: a node of the KD-tree (the tree lives in nanoflann, not
among the sources). A leaf holds a range of point indices; an internal node holds the
split dimension, the split value and its two subtrees. Every node caches the bounding
box of its points. -/
inductive KDNode (α : Type) where
  | leaf (bbox : List (α × α)) (indices : List Nat)
  | inner (bbox : List (α × α)) (splitDim : Nat) (splitVal : α) (left right : KDNode α)

/-- Modelled from the spec: cached bounding box of a node (the tree is not among the sources). -/
def KDNode.bbox : KDNode α → List (α × α)
  | .leaf bb _ => bb
  | .inner bb _ _ _ _ => bb

/-- Modelled from the spec: the point indices stored below a node, left to right (the tree is not
among the sources). -/
def KDNode.indices : KDNode α → List Nat
  | .leaf _ idxs => idxs
  | .inner _ _ _ l r => l.indices ++ r.indices

/-- Modelled from the spec: largest number of indices in a leaf below a node (the tree is not
among the sources). -/
def KDNode.maxLeaf : KDNode α → Nat
  | .leaf _ idxs => idxs.length
  | .inner _ _ _ l r => max l.maxLeaf r.maxLeaf

/-- Modelled from the spec: recursive KD-tree construction (section 4.1; the builder
is in nanoflann, not among the sources). A range of at most `leafSize` indices becomes
a leaf. Otherwise the range is ordered along the axis of maximum spread (ties by
index), cut at its median position, and both halves are built recursively. The first
argument bounds the recursion depth; `BuildIndex` passes the number of points. -/
def buildNode (leafSize : Nat) (P : Nat → Nat → α) (D : Nat) : Nat → List Nat → KDNode α
  | 0, idxs => .leaf (boundingBox P D idxs) idxs
  | fuel + 1, idxs =>
    if idxs.length ≤ leafSize then .leaf (boundingBox P D idxs) idxs
    else
      let bb := boundingBox P D idxs
      let d := splitDimension D bb
      let sorted := idxs.insertionSort (coordLe P d)
      let mid := sorted.length / 2
      .inner bb d (P (sorted.getD mid 0) d)
        (buildNode leafSize P D fuel (sorted.take mid))
        (buildNode leafSize P D fuel (sorted.drop mid))

/-- Modelled from the spec: the KDTreeIndex (section 3). The metric is a parameter of
the type, as the `Distance` argument is for `KDTreeSingleIndexAdaptor`: it is chosen
when the index is built and cannot change afterwards. -/
structure KDTreeIndex (metric : Metric) (α : Type) where
  leafSize : Nat
  points : Tensor α
  root : KDNode α

/-- Modelled from the spec: the metric of an index (the index type is not among the sources). -/
def KDTreeIndex.metricOf {metric : Metric} {β : Type} (_ : KDTreeIndex metric β) : Metric :=
  metric

/-- Modelled from the spec: `BuildIndex(points, metric)` (section 4.1 and 6; the body
of `SetTensorData` is not among the sources). Fails with `InvalidArgument` on empty or
dimension-0 input. `leafSize` is the leaf-size threshold. -/
def BuildIndex (leafSize : Nat) (points : Tensor α) (metric : Metric) :
    Except Error (KDTreeIndex metric α) :=
  if points.rows = 0 ∨ points.cols < 1 then .error .InvalidArgument
  else .ok
    { leafSize := leafSize
      points := points
      root := buildNode leafSize points.coord points.cols points.rows
        (List.range points.rows) }

/-- Modelled from the spec: one (index, distance) pair of a QueryResult (section 3; the result
assembly is not among the sources). -/
structure Neighbor (α : Type) where
  index : Nat
  distance : α

/-- Modelled from the spec: the result order of sections 4.2 to 4.4 (the sorting code is not among
the sources): ascending distance, equal distances by ascending point index. -/
def Neighbor.le (a b : Neighbor α) : Prop :=
  a.distance < b.distance ∨ (a.distance = b.distance ∧ a.index ≤ b.index)

instance Neighbor.le.decidable : DecidableRel (@Neighbor.le α _) :=
  fun a b => by unfold Neighbor.le; exact inferInstance

instance Neighbor.le.isTotal : IsTotal (Neighbor α) Neighbor.le where
  total a b := by
    unfold Neighbor.le
    rcases lt_trichotomy a.distance b.distance with h | h | h
    · exact Or.inl (Or.inl h)
    · rcases Nat.le_total a.index b.index with hi | hi
      · exact Or.inl (Or.inr ⟨h, hi⟩)
      · exact Or.inr (Or.inr ⟨h.symm, hi⟩)
    · exact Or.inr (Or.inl h)

instance Neighbor.le.isTrans : IsTrans (Neighbor α) Neighbor.le where
  trans a b c hab hbc := by
    unfold Neighbor.le at *
    rcases hab with h1 | ⟨h1, i1⟩
    · rcases hbc with h2 | ⟨h2, _⟩
      · exact Or.inl (lt_trans h1 h2)
      · exact Or.inl (h2 ▸ h1)
    · rcases hbc with h2 | ⟨h2, i2⟩
      · exact Or.inl (h1 ▸ h2)
      · exact Or.inr ⟨h1.trans h2, Nat.le_trans i1 i2⟩

instance Neighbor.le.isAntisymm : IsAntisymm (Neighbor α) Neighbor.le where
  antisymm a b hab hba := by
    unfold Neighbor.le at *
    cases a with
    | mk ai ad =>
      cases b with
      | mk bi bd =>
        simp only at hab hba
        rcases hab with h1 | ⟨h1, i1⟩
        · rcases hba with h2 | ⟨h2, _⟩
          · exact absurd h1 (lt_asymm h2)
          · exact absurd h1 (h2 ▸ lt_irrefl _)
        · rcases hba with h2 | ⟨_, i2⟩
          · exact absurd h2 (h1 ▸ lt_irrefl _)
          · rw [h1, Nat.le_antisymm i1 i2]

/-- The first `k` of a list of candidates put into result order. -/
def topK (k : Nat) (l : List (Neighbor α)) : List (Neighbor α) :=
  (l.insertionSort Neighbor.le).take k

/-- Whether a candidate is within the radius, when there is one. -/
def keepWithin (limit : Option α) (c : Neighbor α) : Bool :=
  match limit with
  | some r => decide (c.distance ≤ r)
  | none => true

/-- Every cached bounding box below a node bounds from below the distance of each
point stored under it. -/
def KDNode.BoxSound (dist : Nat → α) (boxDist : List (α × α) → α) : KDNode α → Prop
  | .leaf bb idxs => ∀ i ∈ idxs, boxDist bb ≤ dist i
  | .inner bb _ _ l r =>
    (∀ i ∈ l.indices ++ r.indices, boxDist bb ≤ dist i) ∧
      KDNode.BoxSound dist boxDist l ∧ KDNode.BoxSound dist boxDist r

/-- Modelled from the spec: the bounded best-`k` structure of section 4.2 (a max-heap
of size `k` in the spec, kept here as the ascending list of its entries). A candidate
enters when fewer than `k` are kept or when it precedes the current worst one in the
result order, which is then dropped. -/
def pushBounded (k : Nat) (c : Neighbor α) (best : List (Neighbor α)) : List (Neighbor α) :=
  (best.orderedInsert Neighbor.le c).take k

/-- Modelled from the spec: the current `k`-th best distance of the best-`k` structure, when `k`
candidates are kept (the traversal is not among the sources). -/
def kthBest (k : Nat) (best : List (Neighbor α)) : Option α :=
  if k = 0 then none else (best[k - 1]?).map Neighbor.distance

/-- Modelled from the spec: the pruning test of sections 4.2 and 4.4 (the traversal is not
among the sources) for a subtree whose bounding box is at distance `bd` from the query:
the box is farther than the radius (when there is one), or farther than the current
`k`-th best distance. -/
def boundedPruned (limit : Option α) (k : Nat) (bd : α) (best : List (Neighbor α)) : Bool :=
  (match limit with
    | some r => decide (r < bd)
    | none => false) ||
  (match kthBest k best with
    | some w => decide (w < bd)
    | none => false)

/-- Modelled from the spec: a point of a visited leaf is considered (the traversal is not among
the sources): discarded when beyond the radius (when there is one), offered to the
best-`k` structure otherwise. -/
def consider (limit : Option α) (k : Nat) (c : Neighbor α) (best : List (Neighbor α)) :
    List (Neighbor α) :=
  match limit with
  | some r => if r < c.distance then best else pushBounded k c best
  | none => pushBounded k c best

/-- Modelled from the spec: the branch-and-bound traversal of sections 4.2 (KNN,
`limit = none`) and 4.4 (hybrid, `limit = some radius`); the traversal is in nanoflann,
not among the sources. `dist i` is the distance of point `i` from the query, `boxDist`
the distance of a bounding box from the query. The child whose box is nearer is visited
first. -/
def boundedVisit (dist : Nat → α) (boxDist : List (α × α) → α) (limit : Option α) (k : Nat) :
    KDNode α → List (Neighbor α) → List (Neighbor α)
  | .leaf bb idxs, best =>
    if boundedPruned limit k (boxDist bb) best then best
    else idxs.foldl (fun b i => consider limit k { index := i, distance := dist i } b) best
  | .inner bb _ _ l r, best =>
    if boundedPruned limit k (boxDist bb) best then best
    else if boxDist l.bbox ≤ boxDist r.bbox then
      boundedVisit dist boxDist limit k r (boundedVisit dist boxDist limit k l best)
    else
      boundedVisit dist boxDist limit k l (boundedVisit dist boxDist limit k r best)

/-- Modelled from the spec: the radius traversal of section 4.3 (in nanoflann, not
among the sources): a subtree is skipped only when its box is farther than the radius;
the points of a visited leaf within the radius are appended. -/
def radiusVisit (dist : Nat → α) (boxDist : List (α × α) → α) (radius : α) :
    KDNode α → List (Neighbor α) → List (Neighbor α)
  | .leaf bb idxs, acc =>
    if radius < boxDist bb then acc
    else acc ++ (idxs.map fun i => { index := i, distance := dist i }).filter
      fun c => decide (c.distance ≤ radius)
  | .inner bb _ _ l r, acc =>
    if radius < boxDist bb then acc
    else radiusVisit dist boxDist radius r (radiusVisit dist boxDist radius l acc)

/-- Modelled from the spec: distance of point `i` of `points` from query `j` (the distance
functors are not among the sources). -/
def pointDistance (m : Metric) (points queries : Tensor α) (j i : Nat) : α :=
  m.distance points.cols (queries.coord j) (points.coord i)

/-- Modelled from the spec: distance of point `i` of the index from query `j` (the traversal is
not among the sources). -/
def KDTreeIndex.dist {m : Metric} (idx : KDTreeIndex m α) (queries : Tensor α) (j i : Nat) : α :=
  pointDistance m idx.points queries j i

/-- Modelled from the spec: distance of a bounding box from query `j` (the traversal is not among
the sources). -/
def KDTreeIndex.boxDist {m : Metric} (idx : KDTreeIndex m α) (queries : Tensor α) (j : Nat)
    (bb : List (α × α)) : α :=
  m.boxDistance idx.points.cols (queries.coord j) bb

/-- Modelled from the spec: the neighbours of query `j` found by the KNN traversal, in result
order (the body of `SearchKnn` is not among the sources). -/
def KDTreeIndex.knnRow {m : Metric} (idx : KDTreeIndex m α) (queries : Tensor α) (k j : Nat) :
    List (Neighbor α) :=
  boundedVisit (idx.dist queries j) (idx.boxDist queries j) none k idx.root []

/-- Modelled from the spec: the neighbours of query `j` found by the hybrid traversal, in result
order (the body of `HybridSearch` is not among the sources). -/
def KDTreeIndex.hybridRow {m : Metric} (idx : KDTreeIndex m α) (queries : Tensor α)
    (radius : α) (k j : Nat) : List (Neighbor α) :=
  boundedVisit (idx.dist queries j) (idx.boxDist queries j) (some (m.radiusBound radius)) k
    idx.root []

/-- Modelled from the spec: the neighbours of query `j` found by the radius traversal, sorted into
result order (the body of `SearchRadius` is not among the sources). -/
def KDTreeIndex.radiusRow {m : Metric} (idx : KDTreeIndex m α) (queries : Tensor α)
    (radius : α) (j : Nat) : List (Neighbor α) :=
  (radiusVisit (idx.dist queries j) (idx.boxDist queries j) (m.radiusBound radius)
    idx.root []).insertionSort Neighbor.le

/-- Modelled from the spec: the dense ResultPacker of section 4.5 (not among the
sources): fixed-width rows written one after the other. -/
def packDense {β : Type} (width : Nat) (rows : List (List β)) : Tensor β :=
  { rows := rows.length, cols := width, data := rows.flatten }

/-- Modelled from the spec: `row_splits` of the ragged ResultPacker (section 4.5, not
among the sources): the running sum of the per-query counts, starting at `acc`. -/
def rowSplits : Nat → List Nat → List Nat
  | acc, [] => [acc]
  | acc, c :: cs => acc :: rowSplits (acc + c) cs

/-- Modelled from the spec: index column of a list of neighbours, 64-bit signed in the interface
(the result assembly is not among the sources). -/
def indicesOf (row : List (Neighbor α)) : List Int := row.map fun c => (c.index : Int)

/-- Modelled from the spec: distance column of a list of neighbours (the result assembly is not
among the sources). -/
def distancesOf (row : List (Neighbor α)) : List α := row.map Neighbor.distance

/-- Modelled from the spec: `SearchKnn(queries, k)` of section 4.2 (declared in
`NanoFlann.h`, `NearestNeighbor::KnnSearch` forwards to it; the bodies are not among
the sources). Fails with `InvalidArgument` if `k < 1` or the query dimension differs
from the index dimension; the effective `k` is `min(k, N)`. -/
def SearchKnn {m : Metric} (idx : KDTreeIndex m α) (queries : Tensor α) (knn : Int) :
    Except Error (Tensor Int × Tensor α) :=
  if knn < 1 ∨ queries.cols ≠ idx.points.cols then .error .InvalidArgument
  else
    let k := min knn.toNat idx.points.rows
    let rows := (List.range queries.rows).map (idx.knnRow queries k)
    .ok (packDense k (rows.map indicesOf), packDense k (rows.map distancesOf))

/-- Modelled from the spec: `SearchRadius(queries, radii)` of section 4.3 with one
radius per query (declared in `NanoFlann.h`, `NearestNeighbor::RadiusSearch` forwards
to it; the bodies are not among the sources). `radii` is the `double *`, read at the
positions `0 .. M-1`. Fails with `InvalidArgument` if any radius is negative or the
dimensions differ. Returns the flat indices, the flat distances and `row_splits`. -/
def SearchRadius {m : Metric} (idx : KDTreeIndex m α) (queries : Tensor α) (radii : Nat → α) :
    Except Error (List Int × List α × List Nat) :=
  if (∃ j ∈ List.range queries.rows, radii j < 0) ∨ queries.cols ≠ idx.points.cols then
    .error .InvalidArgument
  else
    let rows := (List.range queries.rows).map fun j => idx.radiusRow queries (radii j) j
    .ok ((rows.map indicesOf).flatten, (rows.map distancesOf).flatten,
      rowSplits 0 (rows.map List.length))

/-- Modelled from the spec: `SearchRadius(queries, radius)` of section 4.3, the same
radius broadcast to every query (`NearestNeighbor::FixedRadiusSearch` forwards to it;
the bodies are not among the sources). -/
def SearchRadiusFixed {m : Metric} (idx : KDTreeIndex m α) (queries : Tensor α) (radius : α) :
    Except Error (List Int × List α × List Nat) :=
  SearchRadius idx queries fun _ => radius

/-- Modelled from the spec: a distance slot of a hybrid row (section 4.4; the body of
`HybridSearch` is not among the sources): a real distance or `+infinity`. -/
inductive SlotDistance (α : Type) where
  | finite (d : α)
  | infinity
  deriving DecidableEq

/-- Modelled from the spec: the sentinel index `-1` of an unused slot (section 4.4; the body of
`HybridSearch` is not among the sources). -/
def SENTINEL_INDEX : Int := -1

/-- Modelled from the spec: index slots of a hybrid row (section 4.4; the body of `HybridSearch`
is not among the sources): the real entries, then sentinels up to `width`. -/
def padIndices (width : Nat) (row : List (Neighbor α)) : List Int :=
  indicesOf row ++ List.replicate (width - row.length) SENTINEL_INDEX

/-- Modelled from the spec: distance slots of a hybrid row (section 4.4; the body of
`HybridSearch` is not among the sources): the real entries, then `+infinity` up to
`width`. -/
def padDistances (width : Nat) (row : List (Neighbor α)) : List (SlotDistance α) :=
  row.map (fun c => SlotDistance.finite c.distance) ++
    List.replicate (width - row.length) SlotDistance.infinity

/-- Modelled from the spec: `HybridSearch(queries, radius, max_knn)` of section 4.4
(declared in `NearestNeighbor.h`; the body is not among the sources). Fails with
`InvalidArgument` on `max_knn < 1`, a negative radius or a dimension mismatch. Rows
have `max_knn` slots; unused slots hold the sentinel. -/
def HybridSearch {m : Metric} (idx : KDTreeIndex m α) (queries : Tensor α) (radius : α)
    (max_knn : Int) : Except Error (Tensor Int × Tensor (SlotDistance α)) :=
  if max_knn < 1 ∨ radius < 0 ∨ queries.cols ≠ idx.points.cols then .error .InvalidArgument
  else
    let k := max_knn.toNat
    let rows := (List.range queries.rows).map (idx.hybridRow queries radius k)
    .ok (packDense k (rows.map (padIndices k)), packDense k (rows.map (padDistances k)))

/-- Reference of section 8: all candidates of a brute-force scan for query `j`, every
point of `points` with its distance. -/
def bruteForceCandidates (m : Metric) (points queries : Tensor α) (j : Nat) :
    List (Neighbor α) :=
  (List.range points.rows).map fun i =>
    { index := i, distance := pointDistance m points queries j i }

/-- Reference of section 8, brute-force KNN: sort all candidates into result order,
keep the first `k`. -/
def bruteForceKnn (m : Metric) (points queries : Tensor α) (k j : Nat) : List (Neighbor α) :=
  ((bruteForceCandidates m points queries j).insertionSort Neighbor.le).take k

/-- Reference of section 8, brute-force radius search: the candidates within the
radius, in result order. -/
def bruteForceRadius (m : Metric) (points queries : Tensor α) (radius : α) (j : Nat) :
    List (Neighbor α) :=
  ((bruteForceCandidates m points queries j).filter
    fun c => decide (c.distance ≤ m.radiusBound radius)).insertionSort Neighbor.le

/-- Reference of section 8, brute-force hybrid search: the first `k` of the brute-force
radius result. -/
def bruteForceHybrid (m : Metric) (points queries : Tensor α) (radius : α) (k j : Nat) :
    List (Neighbor α) :=
  (bruteForceRadius m points queries radius j).take k

/-- The ragged shape law for `M` queries: `row_splits` has `M + 1` entries, starts at
0, is non-decreasing and ends at the length of both flat sequences. -/
def RaggedShape (M : Nat) (res : List Int × List α × List Nat) : Prop :=
  res.2.2.length = M + 1 ∧ res.2.2[0]? = some 0 ∧ res.2.2.Sorted (· ≤ ·) ∧
    res.2.2.getLast? = some res.1.length ∧ res.2.1.length = res.1.length

end Search

/-- The point set of the scenarios of section 8: `(0,0), (1,0), (0,1), (5,5)`. -/
def scenarioPoints : Tensor Rat :=
  { rows := 4, cols := 2, data := [0, 0, 1, 0, 0, 1, 5, 5] }

/-- The query of the scenarios of section 8: the single point `(0,0)`. -/
def scenarioQuery : Tensor Rat :=
  { rows := 1, cols := 2, data := [0, 0] }

/-! ### The `NanoFlann` class -/

/-- Metric computed by a nanoflann distance adaptor. -/
def NanoflannDistance.metric : NanoflannDistance → Metric
  | .L1_Adaptor => .L1
  | .L2_Adaptor => .L2

/-- `nanoflann::KDTreeSingleIndexAdaptor<Distance, DatasetAdaptor>`: an index whose
distance is a template argument. -/
abbrev KDTreeSingleIndexAdaptor (Distance : NanoflannDistance) (α : Type) : Type :=
  KDTreeIndex Distance.metric α

/-- `typename SelectNanoflannAdaptor<L2, double>::Adaptor_t` in the `KDTree_t` typedef
of class `NanoFlann`. -/
def NanoFlann.Adaptor_t : NanoflannDistance :=
  (SelectNanoflannAdaptor Metric.L2.toInt).get (by decide)

/-- `typedef nanoflann::KDTreeSingleIndexAdaptor<typename SelectNanoflannAdaptor<L2,
double>::Adaptor_t, Adaptor<double>> KDTree_t;` -/
abbrev NanoFlann.KDTree_t (α : Type) : Type :=
  KDTreeSingleIndexAdaptor NanoFlann.Adaptor_t α

/-- `class NanoFlann`: its five protected fields; a null `unique_ptr` is `none`. -/
structure NanoFlann (α : Type) where
  data_ : Tensor α
  index_ : Option (NanoFlann.KDTree_t α)
  adaptor_ : Option (Adaptor α)
  dimension_ : Int := 0
  dataset_size_ : Nat := 0

/-- The metric with which a `NanoFlann` object measures distances, when it holds an
index. -/
def NanoFlann.metricOf {α : Type} (n : NanoFlann α) : Option Metric :=
  n.index_.map KDTreeIndex.metricOf

/-! ## Theorems about the headers -/

theorem toSizeT_natCast {n : Nat} (h : n < SIZE_T_MOD) : toSizeT (n : Int) = n := by
  unfold toSizeT
  have h0 : ((n : Int)) % ((SIZE_T_MOD : Nat) : Int) = (n : Int) :=
    Int.emod_eq_of_lt (Int.natCast_nonneg n) (by exact_mod_cast h)
  rw [h0]
  exact Int.toNat_natCast n

theorem offset_lt_of_valid {N D idx dim : Nat} (hidx : idx < N) (hdim : dim < D) :
    idx * D + dim < N * D := by
  have h1 : idx * D + dim < (idx + 1) * D := by
    rw [Nat.succ_mul]
    exact Nat.add_lt_add_left hdim _
  exact lt_of_lt_of_le h1 (Nat.mul_le_mul_right D hidx)

theorem Adaptor.offset_eq_of_valid {T : Type} (a : Adaptor T) {N D idx dim : Nat}
    (hN : a.num_points = N) (hD : a.dimension = (D : Int)) (hND : N * D < SIZE_T_MOD)
    (hidx : idx < N) (hdim : dim < D) :
    toSizeT a.dimension = D ∧ idx * D < SIZE_T_MOD ∧ idx * D + dim < SIZE_T_MOD ∧
      a.offset idx dim = idx * D + dim := by
  have _ := hN
  have hlt := offset_lt_of_valid hidx hdim
  have hsum : idx * D + dim < SIZE_T_MOD := lt_trans hlt hND
  have hprod : idx * D < SIZE_T_MOD := lt_of_le_of_lt (Nat.le_add_right _ _) hsum
  have hDle : D ≤ N * D := Nat.le_mul_of_pos_left D (Nat.lt_of_le_of_lt (Nat.zero_le idx) hidx)
  have hDlt : D < SIZE_T_MOD := lt_of_le_of_lt hDle hND
  have hconv : toSizeT a.dimension = D := by rw [hD]; exact toSizeT_natCast hDlt
  refine ⟨hconv, hprod, hsum, ?_⟩
  unfold Adaptor.offset
  rw [hconv, Nat.mod_eq_of_lt hprod, Nat.mod_eq_of_lt hsum]

theorem rowMajorPoint_getElem? {T : Type} (buf : List T) (D idx dim : Nat) (hdim : dim < D) :
    (rowMajorPoint buf D idx)[dim]? = buf[idx * D + dim]? := by
  unfold rowMajorPoint
  rw [List.getElem?_take, if_pos hdim, List.getElem?_drop]

/-- C2: over a row-major buffer of `N * D` elements (a buffer in a 64-bit address
space), for `idx < N` and `dim < D`, `kdtree_get_pt(idx, dim)` returns the buffer
element at offset `idx * D + dim`, which is coordinate `dim` of point `idx`; the read
is inside the buffer. -/
theorem Adaptor.kdtree_get_pt_row_major {T : Type} (N D : Nat) (buf : List T)
    (hlen : buf.length = N * D) (haddr : buf.length < SIZE_T_MOD)
    (idx dim : Nat) (hidx : idx < N) (hdim : dim < D) :
    ((Adaptor.new N (D : Int) buf).kdtree_get_pt idx dim).1 = buf[idx * D + dim]? ∧
      ((Adaptor.new N (D : Int) buf).kdtree_get_pt idx dim).1 = (rowMajorPoint buf D idx)[dim]? ∧
      (((Adaptor.new N (D : Int) buf).kdtree_get_pt idx dim).1).isSome = true := by
  have hND : N * D < SIZE_T_MOD := hlen ▸ haddr
  have hoff := (Adaptor.offset_eq_of_valid (Adaptor.new N (D : Int) buf) rfl rfl hND hidx hdim).2.2.2
  have hread : ((Adaptor.new N (D : Int) buf).kdtree_get_pt idx dim).1 = buf[idx * D + dim]? := by
    show buf[(Adaptor.new N (D : Int) buf).offset idx dim]? = _
    rw [hoff]
  have hin : idx * D + dim < buf.length := hlen ▸ offset_lt_of_valid hidx hdim
  refine ⟨hread, ?_, ?_⟩
  · rw [hread, rowMajorPoint_getElem? buf D idx dim hdim]
  · rw [hread, List.getElem?_eq_getElem hin]
    rfl

/-- Witness of C2: in the 2 x 2 buffer `[10, 20, 30, 40]`, `kdtree_get_pt(1, 0)` reads 30. -/
theorem Adaptor.kdtree_get_pt_row_major_witness :
    (([10, 20, 30, 40] : List Int).length = 2 * 2) ∧
      ((Adaptor.new 2 ((2 : Nat) : Int) ([10, 20, 30, 40] : List Int)).kdtree_get_pt 1 0).1
        = some 30 := by
  refine ⟨by decide, ?_⟩
  have h := (Adaptor.kdtree_get_pt_row_major 2 2 ([10, 20, 30, 40] : List Int) (by decide)
    (by decide) 1 0 (by decide) (by decide)).1
  rw [h]
  rfl

/-- C8: for an adaptor with `num_points = N` and `dimension = D`, `D >= 1` and
`N * D < 2^64`, and for `idx < N`, `dim < D`: the conversion of `dimension` to `size_t`
keeps its value, neither the product `idx * dimension` nor the sum with `dim` wraps,
the offset computed by `kdtree_get_pt` is `idx * D + dim`, and it is below `N * D`. -/
theorem Adaptor.offset_in_bounds {T : Type} (a : Adaptor T) (N D idx dim : Nat)
    (hN : a.num_points = N) (hD : a.dimension = (D : Int)) (hD1 : 1 ≤ D)
    (hND : N * D < 2 ^ 64) (hidx : idx < N) (hdim : dim < D) :
    toSizeT a.dimension = D ∧
      idx * toSizeT a.dimension < 2 ^ 64 ∧
      idx * toSizeT a.dimension + dim < 2 ^ 64 ∧
      a.offset idx dim = idx * D + dim ∧
      a.offset idx dim < N * D := by
  have _ := hD1
  obtain ⟨h1, h2, h3, h4⟩ := Adaptor.offset_eq_of_valid a hN hD hND hidx hdim
  refine ⟨h1, ?_, ?_, h4, ?_⟩
  · rw [h1]; exact h2
  · rw [h1]; exact h3
  · rw [h4]; exact offset_lt_of_valid hidx hdim

/-- Witness of C8: for 3 points of dimension 2, the offset of `(2, 1)` is 5, below 6. -/
theorem Adaptor.offset_in_bounds_witness :
    (Adaptor.new 3 2 ([1, 2, 3, 4, 5, 6] : List Int)).offset 2 1 = 2 * 2 + 1 ∧
      (Adaptor.new 3 2 ([1, 2, 3, 4, 5, 6] : List Int)).offset 2 1 < 3 * 2 :=
  (Adaptor.offset_in_bounds (Adaptor.new 3 2 ([1, 2, 3, 4, 5, 6] : List Int)) 3 2 2 1
    rfl rfl (by decide) (by decide) (by decide) (by decide)).2.2.2

/-- C9: for an adaptor with dimension `D >= 1` over an addressable buffer
(`num_points * D < 2^64`), the offset computed by `kdtree_get_pt` is injective on valid
coordinates (`idx < num_points`, `dim < D`): equal offsets come from the same point and
the same coordinate. -/
theorem Adaptor.offset_injective {T : Type} (a : Adaptor T) (D : Nat)
    (hD : a.dimension = (D : Int)) (hD1 : 1 ≤ D) (hbuf : a.num_points * D < 2 ^ 64)
    (idx1 dim1 idx2 dim2 : Nat)
    (h1 : a.ValidCoord idx1 dim1) (h2 : a.ValidCoord idx2 dim2)
    (heq : a.offset idx1 dim1 = a.offset idx2 dim2) :
    idx1 = idx2 ∧ dim1 = dim2 := by
  have hd1 : dim1 < D := by have := h1.2; rw [hD] at this; exact_mod_cast this
  have hd2 : dim2 < D := by have := h2.2; rw [hD] at this; exact_mod_cast this
  have e1 := (Adaptor.offset_eq_of_valid a rfl hD hbuf h1.1 hd1).2.2.2
  have e2 := (Adaptor.offset_eq_of_valid a rfl hD hbuf h2.1 hd2).2.2.2
  rw [e1, e2] at heq
  have hpos : 0 < D := hD1
  have hq : idx1 = idx2 := by
    have q1 : (idx1 * D + dim1) / D = idx1 := by
      rw [Nat.add_comm, Nat.add_mul_div_right _ _ hpos, Nat.div_eq_of_lt hd1, Nat.zero_add]
    have q2 : (idx2 * D + dim2) / D = idx2 := by
      rw [Nat.add_comm, Nat.add_mul_div_right _ _ hpos, Nat.div_eq_of_lt hd2, Nat.zero_add]
    rw [← q1, ← q2, heq]
  subst hq
  exact ⟨rfl, Nat.add_left_cancel heq⟩

/-- Outside the valid coordinates the `size_t` product wraps: with `dimension = 2`,
point index `2^63` yields the same offset as point index 0. -/
theorem Adaptor.offset_wraps_beyond_buffer :
    (Adaptor.new 3 2 ([1, 2, 3, 4, 5, 6] : List Int)).offset (2 ^ 63) 0 =
      (Adaptor.new 3 2 ([1, 2, 3, 4, 5, 6] : List Int)).offset 0 0 := by
  decide

/-- Witness of C9: the hypotheses hold for 3 points of dimension 2 at the pair `(2, 1)`. -/
theorem Adaptor.offset_injective_witness :
    (Adaptor.new 3 2 ([1, 2, 3, 4, 5, 6] : List Int)).offset 2 1 =
        (Adaptor.new 3 2 ([1, 2, 3, 4, 5, 6] : List Int)).offset 2 1 ∧
      ((2 : Nat) = 2 ∧ (1 : Nat) = 1) :=
  ⟨rfl, Adaptor.offset_injective (Adaptor.new 3 2 ([1, 2, 3, 4, 5, 6] : List Int)) 2 rfl
    (by decide) (by decide) 2 1 2 1 ⟨by decide, by decide⟩ ⟨by decide, by decide⟩ rfl⟩

/-- C10: for an adaptor constructed with `(num_points, dimension, data)`,
`kdtree_get_point_count` returns `num_points`, and after `kdtree_get_point_count`,
`kdtree_get_pt` and `kdtree_get_bbox` the adaptor still has the `num_points`,
`dimension` and `data` it was constructed with. -/
theorem Adaptor.view_immutable {T BBOX : Type} (num_points : Nat) (dimension : Int)
    (data : List T) (idx dim : Nat) (bb : BBOX) :
    (Adaptor.new num_points dimension data).kdtree_get_point_count.1 = num_points ∧
      (Adaptor.new num_points dimension data).kdtree_get_point_count.2 =
        { num_points := num_points, dimension := dimension, data := data } ∧
      ((Adaptor.new num_points dimension data).kdtree_get_pt idx dim).2 =
        { num_points := num_points, dimension := dimension, data := data } ∧
      ((Adaptor.new num_points dimension data).kdtree_get_bbox bb).2.2 =
        { num_points := num_points, dimension := dimension, data := data } :=
  ⟨rfl, rfl, rfl, rfl⟩

/-- C7 (as stated, refuted): for an adaptor over one point, `kdtree_get_bbox` does not
return `true`. -/
theorem Adaptor.kdtree_get_bbox_not_true :
    ¬ ((Adaptor.new 1 1 ([0] : List Int)).kdtree_get_bbox ([] : List (Int × Int))).1 = true := by
  decide

/-- C7 (amended): for every adaptor, `kdtree_get_bbox` returns `false` and leaves the
box passed to it untouched: no bounding box is supplied, the index builder has to
compute its own. -/
theorem Adaptor.kdtree_get_bbox_false {T BBOX : Type} (a : Adaptor T) (bb : BBOX) :
    (a.kdtree_get_bbox bb).1 = false ∧ (a.kdtree_get_bbox bb).2.1 = bb :=
  ⟨rfl, rfl⟩

/-- C5 (as stated, refuted): the dispatch provides no distance adaptor for `Linf`. -/
theorem SelectNanoflannAdaptor_Linf_none :
    ¬ (SelectNanoflannAdaptor Metric.Linf.toInt).isSome = true := by
  decide

/-- C5 (amended): the dispatch provides the `L1` distance adaptor for `L1` and the `L2`
distance adaptor for `L2`; for every other value of `METRIC`, `Linf` included, the
primary template is selected and there is no `Adaptor_t`. -/
theorem SelectNanoflannAdaptor_cases :
    SelectNanoflannAdaptor Metric.L1.toInt = some NanoflannDistance.L1_Adaptor ∧
      SelectNanoflannAdaptor Metric.L2.toInt = some NanoflannDistance.L2_Adaptor ∧
      SelectNanoflannAdaptor Metric.Linf.toInt = none ∧
      ∀ M : Int, (SelectNanoflannAdaptor M).isSome = true ↔
        (M = Metric.L1.toInt ∨ M = Metric.L2.toInt) := by
  refine ⟨by decide, by decide, by decide, ?_⟩
  intro M
  unfold SelectNanoflannAdaptor
  by_cases h2 : M = Metric.L2.toInt
  · rw [if_pos h2]
    exact ⟨fun _ => Or.inr h2, fun _ => rfl⟩
  · rw [if_neg h2]
    by_cases h1 : M = Metric.L1.toInt
    · rw [if_pos h1]
      exact ⟨fun _ => Or.inl h1, fun _ => rfl⟩
    · rw [if_neg h1]
      constructor
      · intro h; cases h
      · intro h
        rcases h with h | h
        · exact absurd h h1
        · exact absurd h h2

theorem NanoFlann.metricOf_cases {α : Type} (n : NanoFlann α) :
    n.metricOf = none ∨ n.metricOf = some Metric.L2 := by
  unfold NanoFlann.metricOf
  cases n.index_ with
  | none => exact Or.inl rfl
  | some t => exact Or.inr rfl

/-- C6 (as stated, refuted): not every metric of the enumeration can be the metric of
a `NanoFlann` index; no `NanoFlann` object measures distances with `L1`. -/
theorem NanoFlann.metric_not_selectable :
    ¬ ∀ m : Metric, ∃ n : NanoFlann Int, n.metricOf = some m := by
  intro h
  obtain ⟨n, hn⟩ := h Metric.L1
  rcases NanoFlann.metricOf_cases n with h0 | h0
  · rw [h0] at hn; cases hn
  · rw [h0] at hn; cases hn

/-- C6 (amended): the metric of a `NanoFlann` index is fixed to `L2` by the `KDTree_t`
typedef: every `NanoFlann` object either holds no index or measures distances with
`L2`, whatever its other fields are, and an object holding an `L2` index exists. -/
theorem NanoFlann.metric_fixed_L2 :
    NanoFlann.Adaptor_t = NanoflannDistance.L2_Adaptor ∧
      (∀ n : NanoFlann Int, n.metricOf = none ∨ n.metricOf = some Metric.L2) ∧
      (∀ t : NanoFlann.KDTree_t Int, KDTreeIndex.metricOf t = Metric.L2) ∧
      ∃ n : NanoFlann Int, n.metricOf = some Metric.L2 := by
  refine ⟨by decide, fun n => NanoFlann.metricOf_cases n, fun _ => rfl, ?_⟩
  exact ⟨{ data_ := { rows := 1, cols := 1, data := [0] }
           index_ := some { leafSize := 1, points := { rows := 1, cols := 1, data := [0] },
                            root := KDNode.leaf [(0, 0)] [0] }
           adaptor_ := none, dimension_ := 1, dataset_size_ := 1 }, rfl⟩

/-! ## Theorems about the search operations -/

section SearchTheorems

variable {α : Type} [LinearOrderedRing α]

theorem take_orderedInsert_take (c : Neighbor α) (s : List (Neighbor α)) (k : Nat) :
    ((s.take k).orderedInsert Neighbor.le c).take k = (s.orderedInsert Neighbor.le c).take k := by
  induction s generalizing k with
  | nil => simp
  | cons b s ih =>
    cases k with
    | zero => simp
    | succ k =>
      by_cases h : Neighbor.le c b
      · simp only [List.take_succ_cons, List.orderedInsert, if_pos h]
        congr 1
        cases k with
        | zero => simp
        | succ k =>
          simp only [List.take_succ_cons, List.take_take]
          rw [Nat.min_eq_left (Nat.le_succ k)]
      · simp only [List.take_succ_cons, List.orderedInsert, if_neg h]
        rw [ih k]

theorem pushBounded_topK (k : Nat) (c : Neighbor α) (V : List (Neighbor α)) :
    pushBounded k c (topK k V) = topK k (c :: V) := by
  unfold pushBounded topK
  rw [take_orderedInsert_take]
  rfl

theorem insertionSort_perm {V W : List (Neighbor α)} (h : V.Perm W) :
    V.insertionSort Neighbor.le = W.insertionSort Neighbor.le :=
  List.eq_of_perm_of_sorted
    (((List.perm_insertionSort Neighbor.le V).trans h).trans
      (List.perm_insertionSort Neighbor.le W).symm)
    (List.sorted_insertionSort Neighbor.le V) (List.sorted_insertionSort Neighbor.le W)

theorem topK_perm (k : Nat) {V W : List (Neighbor α)} (h : V.Perm W) : topK k V = topK k W := by
  unfold topK
  rw [insertionSort_perm h]

theorem topK_length_le (k : Nat) (V : List (Neighbor α)) : (topK k V).length ≤ k := by
  unfold topK
  rw [List.length_take]
  exact Nat.min_le_left _ _

theorem topK_length (k : Nat) (V : List (Neighbor α)) : (topK k V).length = min k V.length := by
  unfold topK
  rw [List.length_take, List.length_insertionSort]

theorem topK_sorted (k : Nat) (V : List (Neighbor α)) : (topK k V).Sorted Neighbor.le := by
  unfold topK
  exact (List.sorted_insertionSort Neighbor.le V).sublist (List.take_sublist _ _)

theorem orderedInsert_of_all_not_le (c : Neighbor α) (B : List (Neighbor α))
    (h : ∀ b ∈ B, ¬ Neighbor.le c b) : B.orderedInsert Neighbor.le c = B ++ [c] := by
  induction B with
  | nil => rfl
  | cons b B ih =>
    have hb : ¬ Neighbor.le c b := h b (List.mem_cons_self _ _)
    simp only [List.orderedInsert, if_neg hb, List.cons_append]
    rw [ih fun x hx => h x (List.mem_cons_of_mem _ hx)]

theorem kthBest_bound {k : Nat} {B : List (Neighbor α)} {w : α} (hs : B.Sorted Neighbor.le)
    (hlen : B.length ≤ k) (hw : kthBest k B = some w) :
    B.length = k ∧ ∀ b ∈ B, b.distance ≤ w := by
  unfold kthBest at hw
  by_cases hk : k = 0
  · rw [if_pos hk] at hw; cases hw
  · rw [if_neg hk] at hw
    cases hget : B[k - 1]? with
    | none => rw [hget] at hw; cases hw
    | some x =>
      rw [hget] at hw
      have hwx : x.distance = w := by simpa using hw
      obtain ⟨hlt, hx⟩ := List.getElem?_eq_some.mp hget
      have hl : B.length = k := by omega
      refine ⟨hl, ?_⟩
      intro b hb
      obtain ⟨i, hi, hbi⟩ := List.getElem_of_mem hb
      have hle : Neighbor.le b x := by
        rw [← hbi, ← hx]
        by_cases hik : i = k - 1
        · subst hik
          rcases Neighbor.le.isTotal.total (B[k - 1]) (B[k - 1]) with h | h <;> exact h
        · have hlt2 : i < k - 1 := by omega
          exact List.pairwise_iff_getElem.mp hs i (k - 1) hi hlt hlt2
      rw [← hwx]
      unfold Neighbor.le at hle
      rcases hle with h | ⟨h, _⟩
      · exact le_of_lt h
      · exact le_of_eq h

theorem topK_append_far {k : Nat} {V W : List (Neighbor α)} {w : α}
    (hw : kthBest k (topK k V) = some w) (hfar : ∀ c ∈ W, w < c.distance) :
    topK k (W ++ V) = topK k V := by
  induction W with
  | nil => rfl
  | cons c W ih =>
    have ihW := ih fun x hx => hfar x (List.mem_cons_of_mem _ hx)
    rw [List.cons_append, ← pushBounded_topK, ihW]
    obtain ⟨hl, hb⟩ := kthBest_bound (topK_sorted k V) (topK_length_le k V) hw
    have hc := hfar c (List.mem_cons_self _ _)
    have hnot : ∀ b ∈ topK k V, ¬ Neighbor.le c b := by
      intro b hbm hle
      have h1 := hb b hbm
      unfold Neighbor.le at hle
      rcases hle with h | ⟨h, _⟩
      · exact absurd (lt_of_lt_of_le (lt_trans hc h) h1) (lt_irrefl _)
      · exact absurd (lt_of_lt_of_le hc (h ▸ h1)) (lt_irrefl _)
    unfold pushBounded
    rw [orderedInsert_of_all_not_le c _ hnot, List.take_append_of_le_length (le_of_eq hl.symm),
      List.take_of_length_le (le_of_eq hl)]

theorem consider_topK (limit : Option α) (k : Nat) (c : Neighbor α) (V : List (Neighbor α)) :
    consider limit k c (topK k V) = topK k ([c].filter (keepWithin limit) ++ V) := by
  cases limit with
  | none =>
    simp only [consider, keepWithin, List.filter_cons_of_pos, List.filter_nil]
    exact pushBounded_topK k c V
  | some r =>
    by_cases h : r < c.distance
    · have hk : keepWithin (some r) c = false := by
        simp only [keepWithin, decide_eq_false_iff_not, not_le]; exact h
      simp only [consider, if_pos h, List.filter_cons, hk]
      rfl
    · have hk : keepWithin (some r) c = true := by
        simp only [keepWithin, decide_eq_true_eq]; exact not_lt.mp h
      simp only [consider, if_neg h, List.filter_cons, hk]
      exact pushBounded_topK k c V

theorem foldl_consider_topK (dist : Nat → α) (limit : Option α) (k : Nat) (idxs : List Nat)
    (V : List (Neighbor α)) :
    idxs.foldl (fun b i => consider limit k { index := i, distance := dist i } b) (topK k V) =
      topK k ((idxs.map fun i => ({ index := i, distance := dist i } : Neighbor α)).filter
        (keepWithin limit) ++ V) := by
  induction idxs generalizing V with
  | nil => rfl
  | cons i idxs ih =>
    rw [List.foldl_cons, consider_topK, ih]
    apply topK_perm
    have e : (List.map (fun i => ({ index := i, distance := dist i } : Neighbor α))
        (i :: idxs)).filter (keepWithin limit) =
        [({ index := i, distance := dist i } : Neighbor α)].filter (keepWithin limit) ++
          (idxs.map fun i => ({ index := i, distance := dist i } : Neighbor α)).filter
            (keepWithin limit) := by
      rw [← List.filter_append]
      rfl
    rw [e, ← List.append_assoc]
    exact List.perm_append_comm.append_right V

theorem boundedPruned_skip (limit : Option α) (k : Nat) (bd : α) (V W : List (Neighbor α))
    (hW : ∀ c ∈ W, bd ≤ c.distance) (hp : boundedPruned limit k bd (topK k V) = true) :
    topK k (W.filter (keepWithin limit) ++ V) = topK k V := by
  unfold boundedPruned at hp
  rcases Bool.or_eq_true _ _ |>.mp hp with h | h
  · cases limit with
    | none => cases h
    | some r =>
      have hr : r < bd := by simpa using h
      have hnil : W.filter (keepWithin (some r)) = [] := by
        rw [List.filter_eq_nil_iff]
        intro c hc
        have := lt_of_lt_of_le hr (hW c hc)
        simp only [keepWithin, decide_eq_true_eq, not_le]
        exact this
      rw [hnil]
      rfl
  · cases hk : kthBest k (topK k V) with
    | none => rw [hk] at h; cases h
    | some w =>
      rw [hk] at h
      have hw : w < bd := by simpa using h
      apply topK_append_far hk
      intro c hc
      exact lt_of_lt_of_le hw (hW c (List.mem_of_mem_filter hc))

theorem boundedVisit_eq_topK (dist : Nat → α) (boxDist : List (α × α) → α) (limit : Option α)
    (k : Nat) (t : KDNode α) (hs : t.BoxSound dist boxDist) (V : List (Neighbor α)) :
    boundedVisit dist boxDist limit k t (topK k V) =
      topK k ((t.indices.map fun i => ({ index := i, distance := dist i } : Neighbor α)).filter
        (keepWithin limit) ++ V) := by
  induction t generalizing V with
  | leaf bb idxs =>
    unfold boundedVisit
    by_cases hp : boundedPruned limit k (boxDist bb) (topK k V) = true
    · rw [if_pos hp]
      symm
      apply boundedPruned_skip limit k (boxDist bb) V _ _ hp
      intro c hc
      obtain ⟨i, hi, rfl⟩ := List.mem_map.mp hc
      exact hs i hi
    · rw [if_neg hp]
      exact foldl_consider_topK dist limit k idxs V
  | inner bb sd sv l r ihl ihr =>
    unfold boundedVisit
    obtain ⟨hall, hl, hr⟩ := hs
    by_cases hp : boundedPruned limit k (boxDist bb) (topK k V) = true
    · rw [if_pos hp]
      symm
      apply boundedPruned_skip limit k (boxDist bb) V _ _ hp
      intro c hc
      obtain ⟨i, hi, rfl⟩ := List.mem_map.mp hc
      exact hall i hi
    · rw [if_neg hp]
      simp only [KDNode.indices, List.map_append, List.filter_append]
      by_cases ho : boxDist l.bbox ≤ boxDist r.bbox
      · rw [if_pos ho, ihl hl, ihr hr]
        apply topK_perm
        rw [← List.append_assoc]
        exact List.perm_append_comm.append_right V
      · rw [if_neg ho, ihr hr, ihl hl, List.append_assoc]

theorem radiusVisit_eq (dist : Nat → α) (boxDist : List (α × α) → α) (radius : α)
    (t : KDNode α) (hs : t.BoxSound dist boxDist) (acc : List (Neighbor α)) :
    radiusVisit dist boxDist radius t acc =
      acc ++ (t.indices.map fun i => ({ index := i, distance := dist i } : Neighbor α)).filter
        fun c => decide (c.distance ≤ radius) := by
  have hskip : ∀ (bb : List (α × α)) (idxs : List Nat), radius < boxDist bb →
      (∀ i ∈ idxs, boxDist bb ≤ dist i) →
      (idxs.map fun i => ({ index := i, distance := dist i } : Neighbor α)).filter
        (fun c => decide (c.distance ≤ radius)) = [] := by
    intro bb idxs hlt hb
    rw [List.filter_eq_nil_iff]
    intro c hc
    obtain ⟨i, hi, rfl⟩ := List.mem_map.mp hc
    have := lt_of_lt_of_le hlt (hb i hi)
    simp only [decide_eq_true_eq, not_le]
    exact this
  induction t generalizing acc with
  | leaf bb idxs =>
    unfold radiusVisit
    by_cases hp : radius < boxDist bb
    · rw [if_pos hp]
      have h0 := hskip bb idxs hp hs
      simp only [KDNode.indices]
      rw [h0, List.append_nil]
    · rw [if_neg hp]
      rfl
  | inner bb sd sv l r ihl ihr =>
    unfold radiusVisit
    obtain ⟨hall, hl, hr⟩ := hs
    by_cases hp : radius < boxDist bb
    · rw [if_pos hp]
      have h0 := hskip bb (l.indices ++ r.indices) hp hall
      simp only [KDNode.indices]
      rw [h0, List.append_nil]
    · rw [if_neg hp, ihl hl, ihr hr]
      simp only [KDNode.indices, List.map_append, List.filter_append, List.append_assoc]

theorem axisGap_bounds (x p : α) (b : α × α) (hlo : b.1 ≤ p) (hhi : p ≤ b.2) :
    0 ≤ axisGap x b ∧ axisGap x b ≤ absDiff x p := by
  unfold axisGap absDiff
  by_cases h1 : x < b.1
  · have hxp : x ≤ p := le_trans (le_of_lt h1) hlo
    rw [if_pos h1, if_pos hxp]
    exact ⟨sub_nonneg.mpr (le_of_lt h1), sub_le_sub_right hlo x⟩
  · rw [if_neg h1]
    by_cases h2 : b.2 < x
    · have hpx : ¬ x ≤ p := not_le.mpr (lt_of_le_of_lt hhi h2)
      rw [if_pos h2, if_neg hpx]
      exact ⟨sub_nonneg.mpr (le_of_lt h2), sub_le_sub_left hhi x⟩
    · rw [if_neg h2]
      refine ⟨le_refl 0, ?_⟩
      by_cases h3 : x ≤ p
      · rw [if_pos h3]; exact sub_nonneg.mpr h3
      · rw [if_neg h3]; exact sub_nonneg.mpr (le_of_lt (not_le.mp h3))

theorem Metric.axisCost_mono (m : Metric) {a b : α} (h0 : 0 ≤ a) (hab : a ≤ b) :
    m.axisCost a ≤ m.axisCost b := by
  cases m with
  | L1 => exact hab
  | L2 => exact mul_self_le_mul_self h0 hab
  | Linf => exact hab

theorem foldr_max_mono (f g : Nat → α) (l : List Nat) (h : ∀ d ∈ l, f d ≤ g d) :
    (l.map f).foldr max 0 ≤ (l.map g).foldr max 0 := by
  induction l with
  | nil => exact le_refl _
  | cons d l ih =>
    simp only [List.map_cons, List.foldr_cons]
    exact max_le_max (h d (List.mem_cons_self _ _))
      (ih fun x hx => h x (List.mem_cons_of_mem _ hx))

theorem Metric.combine_mono (m : Metric) (f g : Nat → α) (l : List Nat)
    (h : ∀ d ∈ l, f d ≤ g d) : m.combine (l.map f) ≤ m.combine (l.map g) := by
  cases m with
  | L1 => exact List.sum_le_sum h
  | L2 => exact List.sum_le_sum h
  | Linf => exact foldr_max_mono f g l h

theorem foldr_min_le (P : Nat → Nat → α) (d : Nat) (is : List Nat) (init : α) :
    is.foldr (fun j acc => min (P j d) acc) init ≤ init ∧
      ∀ i ∈ is, is.foldr (fun j acc => min (P j d) acc) init ≤ P i d := by
  induction is with
  | nil => exact ⟨le_refl _, fun i hi => absurd hi (List.not_mem_nil i)⟩
  | cons j is ih =>
    simp only [List.foldr_cons]
    refine ⟨le_trans (min_le_right _ _) ih.1, ?_⟩
    intro i hi
    rcases List.mem_cons.mp hi with h | h
    · rw [h]; exact min_le_left _ _
    · exact le_trans (min_le_right _ _) (ih.2 i h)

theorem le_foldr_max (P : Nat → Nat → α) (d : Nat) (is : List Nat) (init : α) :
    init ≤ is.foldr (fun j acc => max (P j d) acc) init ∧
      ∀ i ∈ is, P i d ≤ is.foldr (fun j acc => max (P j d) acc) init := by
  induction is with
  | nil => exact ⟨le_refl _, fun i hi => absurd hi (List.not_mem_nil i)⟩
  | cons j is ih =>
    simp only [List.foldr_cons]
    refine ⟨le_trans ih.1 (le_max_right _ _), ?_⟩
    intro i hi
    rcases List.mem_cons.mp hi with h | h
    · rw [h]; exact le_max_left _ _
    · exact le_trans (ih.2 i h) (le_max_right _ _)

theorem coordMin_le (P : Nat → Nat → α) (d : Nat) (idxs : List Nat) (i : Nat) (hi : i ∈ idxs) :
    coordMin P d idxs ≤ P i d := by
  cases idxs with
  | nil => exact absurd hi (List.not_mem_nil i)
  | cons j is =>
    unfold coordMin
    rcases List.mem_cons.mp hi with h | h
    · rw [h]; exact (foldr_min_le P d is (P j d)).1
    · exact (foldr_min_le P d is (P j d)).2 i h

theorem le_coordMax (P : Nat → Nat → α) (d : Nat) (idxs : List Nat) (i : Nat) (hi : i ∈ idxs) :
    P i d ≤ coordMax P d idxs := by
  cases idxs with
  | nil => exact absurd hi (List.not_mem_nil i)
  | cons j is =>
    unfold coordMax
    rcases List.mem_cons.mp hi with h | h
    · rw [h]; exact (le_foldr_max P d is (P j d)).1
    · exact (le_foldr_max P d is (P j d)).2 i h

theorem boundingBox_getD (P : Nat → Nat → α) (D : Nat) (idxs : List Nat) (d : Nat) (hd : d < D) :
    (boundingBox P D idxs).getD d (0, 0) = (coordMin P d idxs, coordMax P d idxs) := by
  unfold boundingBox
  rw [List.getD_eq_getElem?_getD, List.getElem?_map, List.getElem?_range hd]
  rfl

theorem boxDistance_le_distance (m : Metric) (P : Nat → Nat → α) (D : Nat) (q : Nat → α)
    (idxs : List Nat) (i : Nat) (hi : i ∈ idxs) :
    m.boxDistance D q (boundingBox P D idxs) ≤ m.distance D q (P i) := by
  unfold Metric.boxDistance Metric.distance
  apply Metric.combine_mono
  intro d hd
  have hdD : d < D := List.mem_range.mp hd
  rw [boundingBox_getD P D idxs d hdD]
  have hb := axisGap_bounds (q d) (P i d) (coordMin P d idxs, coordMax P d idxs)
    (coordMin_le P d idxs i hi) (le_coordMax P d idxs i hi)
  exact Metric.axisCost_mono m hb.1 hb.2

theorem buildNode_indices_perm (leafSize : Nat) (P : Nat → Nat → α) (D fuel : Nat)
    (idxs : List Nat) : (buildNode leafSize P D fuel idxs).indices.Perm idxs := by
  induction fuel generalizing idxs with
  | zero => exact List.Perm.refl _
  | succ fuel ih =>
    unfold buildNode
    by_cases h : idxs.length ≤ leafSize
    · rw [if_pos h]; exact List.Perm.refl _
    · rw [if_neg h]
      simp only [KDNode.indices]
      refine ((ih _).append (ih _)).trans ?_
      rw [List.take_append_drop]
      exact List.perm_insertionSort _ _

theorem buildNode_boxSound (m : Metric) (leafSize : Nat) (P : Nat → Nat → α) (D : Nat)
    (q : Nat → α) (fuel : Nat) (idxs : List Nat) :
    (buildNode leafSize P D fuel idxs).BoxSound (fun i => m.distance D q (P i))
      (m.boxDistance D q) := by
  induction fuel generalizing idxs with
  | zero => exact fun i hi => boxDistance_le_distance m P D q idxs i hi
  | succ fuel ih =>
    unfold buildNode
    by_cases h : idxs.length ≤ leafSize
    · rw [if_pos h]; exact fun i hi => boxDistance_le_distance m P D q idxs i hi
    · rw [if_neg h]
      refine ⟨?_, ih _, ih _⟩
      intro i hi
      apply boxDistance_le_distance m P D q idxs i
      have hp : (List.take ((List.insertionSort (coordLe P (splitDimension D (boundingBox P D idxs)))
          idxs).length / 2) (List.insertionSort (coordLe P (splitDimension D (boundingBox P D idxs)))
          idxs) ++ List.drop ((List.insertionSort (coordLe P (splitDimension D
          (boundingBox P D idxs))) idxs).length / 2) (List.insertionSort (coordLe P
          (splitDimension D (boundingBox P D idxs))) idxs)).Perm idxs := by
        rw [List.take_append_drop]
        exact List.perm_insertionSort _ _
      exact hp.subset
        ((((buildNode_indices_perm leafSize P D fuel _).append
          (buildNode_indices_perm leafSize P D fuel _))).subset hi)

theorem buildNode_maxLeaf (leafSize : Nat) (P : Nat → Nat → α) (D fuel : Nat) (idxs : List Nat)
    (hleaf : 1 ≤ leafSize) (hfuel : idxs.length ≤ fuel + leafSize) :
    (buildNode leafSize P D fuel idxs).maxLeaf ≤ leafSize := by
  induction fuel generalizing idxs with
  | zero =>
    unfold buildNode
    simpa [KDNode.maxLeaf] using hfuel
  | succ fuel ih =>
    unfold buildNode
    by_cases h : idxs.length ≤ leafSize
    · rw [if_pos h]; exact h
    · rw [if_neg h]
      simp only [KDNode.maxLeaf]
      have hlen : (List.insertionSort (coordLe P (splitDimension D (boundingBox P D idxs)))
          idxs).length = idxs.length := List.length_insertionSort _ _
      apply max_le
      · apply ih
        rw [List.length_take, hlen]
        omega
      · apply ih
        rw [List.length_drop, hlen]
        omega

theorem rowSplits_length (acc : Nat) (cs : List Nat) :
    (rowSplits acc cs).length = cs.length + 1 := by
  induction cs generalizing acc with
  | nil => rfl
  | cons c cs ih => simp only [rowSplits, List.length_cons, ih]

theorem rowSplits_head (acc : Nat) (cs : List Nat) : (rowSplits acc cs)[0]? = some acc := by
  cases cs <;> simp [rowSplits]

theorem rowSplits_ge (acc : Nat) (cs : List Nat) : ∀ x ∈ rowSplits acc cs, acc ≤ x := by
  induction cs generalizing acc with
  | nil =>
    intro x hx
    simp only [rowSplits, List.mem_singleton] at hx
    exact le_of_eq hx.symm
  | cons c cs ih =>
    intro x hx
    simp only [rowSplits, List.mem_cons] at hx
    rcases hx with h | h
    · exact le_of_eq h.symm
    · exact le_trans (Nat.le_add_right acc c) (ih (acc + c) x h)

theorem rowSplits_sorted (acc : Nat) (cs : List Nat) : (rowSplits acc cs).Sorted (· ≤ ·) := by
  induction cs generalizing acc with
  | nil => exact List.sorted_singleton acc
  | cons c cs ih =>
    simp only [rowSplits]
    refine List.sorted_cons.mpr ⟨?_, ih (acc + c)⟩
    intro x hx
    exact le_trans (Nat.le_add_right acc c) (rowSplits_ge (acc + c) cs x hx)

theorem rowSplits_getLast (acc : Nat) (cs : List Nat) :
    (rowSplits acc cs).getLast? = some (acc + cs.sum) := by
  induction cs generalizing acc with
  | nil => rfl
  | cons c cs ih =>
    simp only [rowSplits, List.getLast?_cons, ih (acc + c), Option.getD_some, List.sum_cons,
      Nat.add_assoc]

theorem rowSplits_step (acc : Nat) (cs : List Nat) (j : Nat) (hj : j < cs.length) :
    (rowSplits acc cs).getD (j + 1) 0 = (rowSplits acc cs).getD j 0 + cs.getD j 0 := by
  induction cs generalizing acc j with
  | nil => exact absurd hj (Nat.not_lt_zero j)
  | cons c cs ih =>
    cases j with
    | zero =>
      cases cs <;> rfl
    | succ j =>
      simp only [rowSplits, List.getD_cons_succ]
      exact ih (acc + c) j (Nat.lt_of_succ_lt_succ hj)

theorem rowMajorPoint_flatten {β : Type} (k : Nat) (rows : List (List β))
    (h : ∀ r ∈ rows, r.length = k) (j : Nat) (hj : j < rows.length) :
    rowMajorPoint rows.flatten k j = rows.getD j [] := by
  induction rows generalizing j with
  | nil => exact absurd hj (Nat.not_lt_zero j)
  | cons r rs ih =>
    have hr : r.length = k := h r (List.mem_cons_self _ _)
    cases j with
    | zero =>
      unfold rowMajorPoint
      rw [Nat.zero_mul, List.drop_zero, List.flatten_cons, List.take_left' hr]
      rfl
    | succ j =>
      have e : rowMajorPoint (r :: rs).flatten k (j + 1) = rowMajorPoint rs.flatten k j := by
        unfold rowMajorPoint
        rw [List.flatten_cons, Nat.succ_mul, Nat.add_comm, ← hr, List.drop_append]
      rw [e, ih (fun x hx => h x (List.mem_cons_of_mem _ hx)) j (Nat.lt_of_succ_lt_succ hj)]
      rfl

theorem packDense_row {β : Type} (k M : Nat) (f : Nat → List β)
    (hf : ∀ j, j < M → (f j).length = k) (j : Nat) (hj : j < M) :
    (packDense k ((List.range M).map f)).row j = f j := by
  unfold Tensor.row packDense
  simp only
  rw [rowMajorPoint_flatten k _ _ j (by rw [List.length_map, List.length_range]; exact hj)]
  · rw [List.getD_eq_getElem?_getD, List.getElem?_map, List.getElem?_range hj]
    rfl
  · intro r hr
    obtain ⟨i, hi, rfl⟩ := List.mem_map.mp hr
    exact hf i (List.mem_range.mp hi)

theorem BuildIndex_ok (leafSize : Nat) (points : Tensor α) (m : Metric)
    (hN : 1 ≤ points.rows) (hD : 1 ≤ points.cols) :
    BuildIndex leafSize points m = .ok
      { leafSize := leafSize
        points := points
        root := buildNode leafSize points.coord points.cols points.rows
          (List.range points.rows) } := by
  unfold BuildIndex
  rw [if_neg]
  intro h
  rcases h with h | h
  · omega
  · omega

theorem BuildIndex_inv (leafSize : Nat) (points : Tensor α) (m : Metric)
    (idx : KDTreeIndex m α) (h : BuildIndex leafSize points m = .ok idx) :
    idx.points = points ∧
      idx.root = buildNode leafSize points.coord points.cols points.rows
        (List.range points.rows) ∧
      1 ≤ points.rows ∧ 1 ≤ points.cols := by
  unfold BuildIndex at h
  by_cases hc : points.rows = 0 ∨ points.cols < 1
  · rw [if_pos hc] at h; cases h
  · rw [if_neg hc] at h
    have hi : idx = _ := (Except.ok.inj h).symm
    subst hi
    refine ⟨rfl, rfl, ?_, ?_⟩
    · by_contra hn; exact hc (Or.inl (by omega))
    · by_contra hn; exact hc (Or.inr (by omega))

theorem built_candidates_perm (leafSize : Nat) (points queries : Tensor α) (m : Metric)
    (idx : KDTreeIndex m α) (h : BuildIndex leafSize points m = .ok idx) (j : Nat) :
    (idx.root.indices.map fun i =>
      ({ index := i, distance := idx.dist queries j i } : Neighbor α)).Perm
      (bruteForceCandidates m points queries j) := by
  obtain ⟨hp, hr, _, _⟩ := BuildIndex_inv leafSize points m idx h
  unfold bruteForceCandidates KDTreeIndex.dist
  rw [hp, hr]
  exact (buildNode_indices_perm _ _ _ _ _).map _

theorem built_boxSound (leafSize : Nat) (points queries : Tensor α) (m : Metric)
    (idx : KDTreeIndex m α) (h : BuildIndex leafSize points m = .ok idx) (j : Nat) :
    idx.root.BoxSound (idx.dist queries j) (idx.boxDist queries j) := by
  obtain ⟨hp, hr, _, _⟩ := BuildIndex_inv leafSize points m idx h
  have hb := buildNode_boxSound m leafSize points.coord points.cols (queries.coord j)
    points.rows (List.range points.rows)
  rw [← hr] at hb
  have e1 : idx.dist queries j = fun i => m.distance points.cols (queries.coord j)
      (points.coord i) := by
    funext i
    unfold KDTreeIndex.dist pointDistance
    rw [hp]
  have e2 : idx.boxDist queries j = m.boxDistance points.cols (queries.coord j) := by
    funext bb
    unfold KDTreeIndex.boxDist
    rw [hp]
  rw [e1, e2]
  exact hb

theorem knnRow_eq_bruteForce (leafSize : Nat) (points queries : Tensor α) (m : Metric)
    (idx : KDTreeIndex m α) (h : BuildIndex leafSize points m = .ok idx) (k j : Nat) :
    idx.knnRow queries k j = bruteForceKnn m points queries k j := by
  unfold KDTreeIndex.knnRow
  have h0 : ([] : List (Neighbor α)) = topK k [] := by
    unfold topK; rw [List.insertionSort, List.take_nil]
  have hall : ∀ l : List (Neighbor α), l.filter (keepWithin none) = l :=
    fun l => List.filter_eq_self.mpr (fun _ _ => rfl)
  rw [h0, boundedVisit_eq_topK _ _ _ _ _ (built_boxSound leafSize points queries m idx h j),
    List.append_nil, hall]
  exact topK_perm k (built_candidates_perm leafSize points queries m idx h j)

theorem hybridRow_eq_bruteForce (leafSize : Nat) (points queries : Tensor α) (m : Metric)
    (idx : KDTreeIndex m α) (h : BuildIndex leafSize points m = .ok idx) (radius : α)
    (k j : Nat) :
    idx.hybridRow queries radius k j = bruteForceHybrid m points queries radius k j := by
  unfold KDTreeIndex.hybridRow
  have h0 : ([] : List (Neighbor α)) = topK k [] := by
    unfold topK; rw [List.insertionSort, List.take_nil]
  rw [h0, boundedVisit_eq_topK _ _ _ _ _ (built_boxSound leafSize points queries m idx h j),
    List.append_nil]
  exact topK_perm k ((built_candidates_perm leafSize points queries m idx h j).filter _)

theorem radiusRow_eq_bruteForce (leafSize : Nat) (points queries : Tensor α) (m : Metric)
    (idx : KDTreeIndex m α) (h : BuildIndex leafSize points m = .ok idx) (radius : α) (j : Nat) :
    idx.radiusRow queries radius j = bruteForceRadius m points queries radius j := by
  unfold KDTreeIndex.radiusRow
  rw [radiusVisit_eq _ _ _ _ (built_boxSound leafSize points queries m idx h j), List.nil_append]
  exact insertionSort_perm ((built_candidates_perm leafSize points queries m idx h j).filter _)

theorem bruteForceKnn_length (m : Metric) (points queries : Tensor α) (k j : Nat)
    (hk : k ≤ points.rows) : (bruteForceKnn m points queries k j).length = k := by
  unfold bruteForceKnn bruteForceCandidates
  rw [List.length_take, List.length_insertionSort, List.length_map, List.length_range]
  exact Nat.min_eq_left hk

theorem bruteForceHybrid_length_le (m : Metric) (points queries : Tensor α) (radius : α)
    (k j : Nat) : (bruteForceHybrid m points queries radius k j).length ≤ k := by
  unfold bruteForceHybrid
  rw [List.length_take]
  exact Nat.min_le_left _ _

theorem flatten_indicesOf_length {β : Type} (rows : List (List (Neighbor β))) :
    ((rows.map indicesOf).flatten).length = (rows.map List.length).sum := by
  rw [List.length_flatten, List.map_map]
  congr 1
  apply List.map_congr_left
  intro r _
  simp only [Function.comp, indicesOf, List.length_map]

theorem flatten_distancesOf_length {β : Type} (rows : List (List (Neighbor β))) :
    ((rows.map distancesOf).flatten).length = (rows.map List.length).sum := by
  rw [List.length_flatten, List.map_map]
  congr 1
  apply List.map_congr_left
  intro r _
  simp only [Function.comp, distancesOf, List.length_map]

theorem SearchKnn_ok {m : Metric} (idx : KDTreeIndex m α) (queries : Tensor α) (knn : Int)
    (hk1 : 1 ≤ knn) (hdim : queries.cols = idx.points.cols) :
    SearchKnn idx queries knn = .ok
      (packDense (min knn.toNat idx.points.rows)
        (((List.range queries.rows).map
          (idx.knnRow queries (min knn.toNat idx.points.rows))).map indicesOf),
       packDense (min knn.toNat idx.points.rows)
        (((List.range queries.rows).map
          (idx.knnRow queries (min knn.toNat idx.points.rows))).map distancesOf)) := by
  have hc : ¬ (knn < 1 ∨ queries.cols ≠ idx.points.cols) := by
    intro h
    rcases h with h | h
    · omega
    · exact h hdim
  unfold SearchKnn
  rw [if_neg hc]

theorem SearchRadius_shape (m : Metric) (leafSize : Nat) (points queries : Tensor α)
    (idx : KDTreeIndex m α) (hbuild : BuildIndex leafSize points m = .ok idx)
    (hdim : queries.cols = points.cols) (radii : Nat → α)
    (hradii : ∀ j, j < queries.rows → 0 ≤ radii j) :
    ∃ res, SearchRadius idx queries radii = .ok res ∧ RaggedShape queries.rows res ∧
      ∀ j, j < queries.rows → res.2.2.getD (j + 1) 0 =
        res.2.2.getD j 0 + (bruteForceRadius m points queries (radii j) j).length := by
  obtain ⟨hp, _, _, _⟩ := BuildIndex_inv leafSize points m idx hbuild
  have hc : ¬ ((∃ j ∈ List.range queries.rows, radii j < 0) ∨ queries.cols ≠ idx.points.cols) := by
    intro h
    rcases h with ⟨j, hj, hneg⟩ | h
    · exact absurd hneg (not_lt.mpr (hradii j (List.mem_range.mp hj)))
    · exact h (hp ▸ hdim)
  unfold SearchRadius
  rw [if_neg hc]
  refine ⟨_, rfl, ⟨?_, ?_, ?_, ?_, ?_⟩, ?_⟩
  · simp only [rowSplits_length, List.length_map, List.length_range]
  · exact rowSplits_head _ _
  · exact rowSplits_sorted _ _
  · simp only [rowSplits_getLast, flatten_indicesOf_length, Nat.zero_add]
  · simp only [flatten_indicesOf_length, flatten_distancesOf_length]
  · intro j hj
    simp only
    rw [rowSplits_step _ _ j (by simp only [List.length_map, List.length_range]; exact hj)]
    congr 1
    rw [List.getD_eq_getElem?_getD, List.map_map, List.getElem?_map, List.getElem?_range hj]
    simp only [Option.map_some', Option.getD_some, Function.comp]
    rw [radiusRow_eq_bruteForce leafSize points queries m idx hbuild]

/-- C3: for a built index and `M` query points of the index dimension, the per-query
radius search (radii all non-negative) and the fixed-radius search (radius
non-negative) both return a result; its `row_splits` has length `M + 1`, starts at 0,
is non-decreasing and ends at the length of the flat index sequence, which is also the
length of the flat distance sequence; consecutive entries differ by the number of
points within the radius of that query, so a query with no match contributes an empty
range. -/
theorem SearchRadius_ragged (m : Metric) (leafSize : Nat) (points queries : Tensor α)
    (idx : KDTreeIndex m α) (hbuild : BuildIndex leafSize points m = .ok idx)
    (hdim : queries.cols = points.cols) (radii : Nat → α)
    (hradii : ∀ j, j < queries.rows → 0 ≤ radii j) (radius : α) (hradius : 0 ≤ radius) :
    (∃ res, SearchRadius idx queries radii = .ok res ∧ RaggedShape queries.rows res ∧
      ∀ j, j < queries.rows →
        res.2.2.getD (j + 1) 0 =
          res.2.2.getD j 0 + (bruteForceRadius m points queries (radii j) j).length ∧
        (bruteForceRadius m points queries (radii j) j = [] →
          res.2.2.getD (j + 1) 0 = res.2.2.getD j 0)) ∧
    (∃ res, SearchRadiusFixed idx queries radius = .ok res ∧ RaggedShape queries.rows res ∧
      ∀ j, j < queries.rows →
        res.2.2.getD (j + 1) 0 =
          res.2.2.getD j 0 + (bruteForceRadius m points queries radius j).length ∧
        (bruteForceRadius m points queries radius j = [] →
          res.2.2.getD (j + 1) 0 = res.2.2.getD j 0)) := by
  constructor
  · obtain ⟨res, h1, h2, h3⟩ :=
      SearchRadius_shape m leafSize points queries idx hbuild hdim radii hradii
    refine ⟨res, h1, h2, fun j hj => ⟨h3 j hj, fun he => ?_⟩⟩
    rw [h3 j hj, he]
    rfl
  · obtain ⟨res, h1, h2, h3⟩ :=
      SearchRadius_shape m leafSize points queries idx hbuild hdim (fun _ => radius)
        (fun _ _ => hradius)
    refine ⟨res, h1, h2, fun j hj => ⟨h3 j hj, fun he => ?_⟩⟩
    rw [h3 j hj, he]
    rfl

theorem SearchKnn_rows (m : Metric) (leafSize : Nat) (points queries : Tensor α)
    (idx : KDTreeIndex m α) (hbuild : BuildIndex leafSize points m = .ok idx) (knn : Int)
    (hdim : queries.cols = points.cols) (hk1 : 1 ≤ knn) (hkN : knn ≤ (points.rows : Int)) :
    ∃ I Dst, SearchKnn idx queries knn = .ok (I, Dst) ∧
      I.rows = queries.rows ∧ I.cols = knn.toNat ∧
      Dst.rows = queries.rows ∧ Dst.cols = knn.toNat ∧
      ∀ j, j < queries.rows →
        I.row j = indicesOf (bruteForceKnn m points queries knn.toNat j) ∧
        Dst.row j = distancesOf (bruteForceKnn m points queries knn.toNat j) ∧
        (bruteForceKnn m points queries knn.toNat j).length = knn.toNat := by
  obtain ⟨hp, _, _, _⟩ := BuildIndex_inv leafSize points m idx hbuild
  have hkle : knn.toNat ≤ points.rows := by omega
  have hS := SearchKnn_ok idx queries knn hk1 (hp ▸ hdim)
  rw [hp] at hS
  simp only [Nat.min_eq_left hkle, List.map_map] at hS
  have hrow : ∀ i, idx.knnRow queries knn.toNat i = bruteForceKnn m points queries knn.toNat i :=
    fun i => knnRow_eq_bruteForce leafSize points queries m idx hbuild knn.toNat i
  have hlen := bruteForceKnn_length m points queries knn.toNat
  refine ⟨_, _, hS, ?_, rfl, ?_, rfl, ?_⟩
  · simp only [packDense, List.length_map, List.length_range]
  · simp only [packDense, List.length_map, List.length_range]
  · intro j hj
    refine ⟨?_, ?_, hlen j hkle⟩
    · rw [packDense_row knn.toNat queries.rows _ _ j hj]
      · simp only [Function.comp, hrow]
      · intro i _
        simp only [Function.comp, hrow, indicesOf, List.length_map]
        exact hlen i hkle
    · rw [packDense_row knn.toNat queries.rows _ _ j hj]
      · simp only [Function.comp, hrow]
      · intro i _
        simp only [Function.comp, hrow, distancesOf, List.length_map]
        exact hlen i hkle

/-- C1: for every point set of `N >= 1` points (dimension at least 1), every metric,
every batch of query points of the same dimension and every `k` with `1 <= k <= N`,
the index is built and `SearchKnn` returns two `M x k` tables whose row `j` holds the
indices and the distances of the first `k` entries of the brute-force scan of all
points, sorted ascending by distance with equal distances in ascending index order. -/
theorem SearchKnn_eq_bruteForce (m : Metric) (leafSize : Nat) (points queries : Tensor α)
    (knn : Int) (hN : 1 ≤ points.rows) (hD : 1 ≤ points.cols)
    (hdim : queries.cols = points.cols) (hk1 : 1 ≤ knn) (hkN : knn ≤ (points.rows : Int)) :
    ∃ idx I Dst, BuildIndex leafSize points m = .ok idx ∧
      SearchKnn idx queries knn = .ok (I, Dst) ∧
      I.rows = queries.rows ∧ I.cols = knn.toNat ∧
      Dst.rows = queries.rows ∧ Dst.cols = knn.toNat ∧
      ∀ j, j < queries.rows →
        I.row j = indicesOf (bruteForceKnn m points queries knn.toNat j) ∧
        Dst.row j = distancesOf (bruteForceKnn m points queries knn.toNat j) ∧
        (bruteForceKnn m points queries knn.toNat j).length = knn.toNat := by
  have hb := BuildIndex_ok leafSize points m hN hD
  obtain ⟨I, Dst, h⟩ := SearchKnn_rows m leafSize points queries _ hb knn hdim hk1 hkN
  exact ⟨_, I, Dst, hb, h⟩

theorem HybridSearch_ok {m : Metric} (idx : KDTreeIndex m α) (queries : Tensor α) (radius : α)
    (max_knn : Int) (hk1 : 1 ≤ max_knn) (hr : 0 ≤ radius)
    (hdim : queries.cols = idx.points.cols) :
    HybridSearch idx queries radius max_knn = .ok
      (packDense max_knn.toNat
        (((List.range queries.rows).map
          (idx.hybridRow queries radius max_knn.toNat)).map (padIndices max_knn.toNat)),
       packDense max_knn.toNat
        (((List.range queries.rows).map
          (idx.hybridRow queries radius max_knn.toNat)).map (padDistances max_knn.toNat))) := by
  have hc : ¬ (max_knn < 1 ∨ radius < 0 ∨ queries.cols ≠ idx.points.cols) := by
    intro h
    rcases h with h | h | h
    · omega
    · exact absurd h (not_lt.mpr hr)
    · exact h hdim
  unfold HybridSearch
  rw [if_neg hc]

theorem padIndices_length {β : Type} (k : Nat) (row : List (Neighbor β))
    (h : row.length ≤ k) :
    (padIndices k row).length = k := by
  unfold padIndices indicesOf
  rw [List.length_append, List.length_map, List.length_replicate]
  omega

theorem padDistances_length {β : Type} (k : Nat) (row : List (Neighbor β))
    (h : row.length ≤ k) :
    (padDistances k row).length = k := by
  unfold padDistances
  rw [List.length_append, List.length_map, List.length_replicate]
  omega

theorem bruteForceHybrid_within (m : Metric) (points queries : Tensor α) (radius : α)
    (k j : Nat) :
    ∀ c ∈ bruteForceHybrid m points queries radius k j, c.distance ≤ m.radiusBound radius := by
  intro c hc
  unfold bruteForceHybrid bruteForceRadius at hc
  have h1 := (List.mem_insertionSort Neighbor.le).mp (List.mem_of_mem_take hc)
  have h2 := (List.mem_filter.mp h1).2
  exact of_decide_eq_true h2

theorem bruteForceHybrid_sorted (m : Metric) (points queries : Tensor α) (radius : α)
    (k j : Nat) : (bruteForceHybrid m points queries radius k j).Sorted Neighbor.le := by
  unfold bruteForceHybrid bruteForceRadius
  exact (List.sorted_insertionSort Neighbor.le _).sublist (List.take_sublist _ _)

/-- C4: for a built index, queries of the index dimension, `radius >= 0` and
`max_knn >= 1`, `HybridSearch` returns two tables of `max_knn` columns; row `j` holds
first the at most `max_knn` nearest points within the radius (the first `max_knn`
entries of the brute-force radius result, sorted ascending by distance, ties by index,
each within the radius and with a non-negative index), then only sentinel entries
(index `-1`, distance `+infinity`) up to `max_knn` slots. For `L2` the distance values
and the radius bound are the squared ones. -/
theorem HybridSearch_rows (m : Metric) (leafSize : Nat) (points queries : Tensor α)
    (idx : KDTreeIndex m α) (hbuild : BuildIndex leafSize points m = .ok idx)
    (hdim : queries.cols = points.cols) (radius : α) (hr : 0 ≤ radius)
    (max_knn : Int) (hk1 : 1 ≤ max_knn) :
    ∃ I Dst, HybridSearch idx queries radius max_knn = .ok (I, Dst) ∧
      I.rows = queries.rows ∧ I.cols = max_knn.toNat ∧
      Dst.rows = queries.rows ∧ Dst.cols = max_knn.toNat ∧
      ∀ j, j < queries.rows →
        I.row j = indicesOf (bruteForceHybrid m points queries radius max_knn.toNat j) ++
          List.replicate
            (max_knn.toNat - (bruteForceHybrid m points queries radius max_knn.toNat j).length)
            SENTINEL_INDEX ∧
        Dst.row j =
          (bruteForceHybrid m points queries radius max_knn.toNat j).map
            (fun c => SlotDistance.finite c.distance) ++
          List.replicate
            (max_knn.toNat - (bruteForceHybrid m points queries radius max_knn.toNat j).length)
            SlotDistance.infinity ∧
        (I.row j).length = max_knn.toNat ∧ (Dst.row j).length = max_knn.toNat ∧
        (bruteForceHybrid m points queries radius max_knn.toNat j).length ≤ max_knn.toNat ∧
        (∀ c ∈ bruteForceHybrid m points queries radius max_knn.toNat j,
          c.distance ≤ m.radiusBound radius ∧ (c.index : Int) ≠ SENTINEL_INDEX) ∧
        (bruteForceHybrid m points queries radius max_knn.toNat j).Sorted Neighbor.le := by
  obtain ⟨hp, _, _, _⟩ := BuildIndex_inv leafSize points m idx hbuild
  have hS := HybridSearch_ok idx queries radius max_knn hk1 hr (hp ▸ hdim)
  simp only [List.map_map] at hS
  have hrow : ∀ i, idx.hybridRow queries radius max_knn.toNat i =
      bruteForceHybrid m points queries radius max_knn.toNat i :=
    fun i => hybridRow_eq_bruteForce leafSize points queries m idx hbuild radius max_knn.toNat i
  have hlen := bruteForceHybrid_length_le m points queries radius max_knn.toNat
  have hI : ∀ j, j < queries.rows →
      (packDense max_knn.toNat ((List.range queries.rows).map
        (padIndices max_knn.toNat ∘ idx.hybridRow queries radius max_knn.toNat))).row j =
      padIndices max_knn.toNat (bruteForceHybrid m points queries radius max_knn.toNat j) := by
    intro j hj
    rw [packDense_row max_knn.toNat queries.rows _ _ j hj]
    · simp only [Function.comp, hrow]
    · intro i _
      simp only [Function.comp, hrow]
      exact padIndices_length _ _ (hlen i)
  have hDst : ∀ j, j < queries.rows →
      (packDense max_knn.toNat ((List.range queries.rows).map
        (padDistances max_knn.toNat ∘ idx.hybridRow queries radius max_knn.toNat))).row j =
      padDistances max_knn.toNat (bruteForceHybrid m points queries radius max_knn.toNat j) := by
    intro j hj
    rw [packDense_row max_knn.toNat queries.rows _ _ j hj]
    · simp only [Function.comp, hrow]
    · intro i _
      simp only [Function.comp, hrow]
      exact padDistances_length _ _ (hlen i)
  refine ⟨_, _, hS, ?_, rfl, ?_, rfl, ?_⟩
  · simp only [packDense, List.length_map, List.length_range]
  · simp only [packDense, List.length_map, List.length_range]
  · intro j hj
    refine ⟨?_, ?_, ?_, ?_, hlen j, ?_, bruteForceHybrid_sorted m points queries radius _ j⟩
    · rw [hI j hj]; rfl
    · rw [hDst j hj]; rfl
    · rw [hI j hj]; exact padIndices_length _ _ (hlen j)
    · rw [hDst j hj]; exact padDistances_length _ _ (hlen j)
    · intro c hc
      refine ⟨bruteForceHybrid_within m points queries radius _ j c hc, ?_⟩
      unfold SENTINEL_INDEX
      omega

end SearchTheorems

/-! ### The scenarios of section 8 -/

theorem scenario_candidates :
    bruteForceCandidates Metric.L2 scenarioPoints scenarioQuery 0 =
      [{ index := 0, distance := 0 }, { index := 1, distance := 1 },
       { index := 2, distance := 1 }, { index := 3, distance := 50 }] := by
  simp [bruteForceCandidates, pointDistance, Metric.distance, Metric.combine, Metric.axisCost,
    absDiff, Tensor.coord, Tensor.view, Adaptor.new, Adaptor.kdtree_get_pt, Adaptor.offset,
    toSizeT, SIZE_T_MOD, scenarioPoints, scenarioQuery, List.range, List.range.loop]
  norm_num

theorem scenario_bruteForceKnn :
    bruteForceKnn Metric.L2 scenarioPoints scenarioQuery 2 0 =
      [{ index := 0, distance := 0 }, { index := 1, distance := 1 }] := by
  unfold bruteForceKnn
  rw [scenario_candidates]
  simp [Neighbor.le]

theorem scenario_bruteForceRadius :
    bruteForceRadius Metric.L2 scenarioPoints scenarioQuery 1 0 =
      [{ index := 0, distance := 0 }, { index := 1, distance := 1 },
       { index := 2, distance := 1 }] := by
  unfold bruteForceRadius
  rw [scenario_candidates]
  simp [Neighbor.le, Metric.radiusBound, Metric.axisCost, List.filter]

theorem scenario_bruteForceHybrid :
    bruteForceHybrid Metric.L2 scenarioPoints scenarioQuery (1 / 2) 2 0 =
      [{ index := 0, distance := 0 }] := by
  unfold bruteForceHybrid bruteForceRadius
  rw [scenario_candidates]
  simp [Neighbor.le, Metric.radiusBound, Metric.axisCost, List.filter]
  norm_num

/-- Witness of C1: the KNN scenario of section 8 (`L2`, query `(0,0)`, `k = 2`, leaf size
1) gives indices `[0, 1]` and distances `[0, 1]`. -/
theorem SearchKnn_eq_bruteForce_witness :
    (1 ≤ scenarioPoints.rows ∧ 1 ≤ scenarioPoints.cols ∧
      scenarioQuery.cols = scenarioPoints.cols ∧ (1 : Int) ≤ 2 ∧
      (2 : Int) ≤ (scenarioPoints.rows : Int)) ∧
    ∃ idx I Dst, BuildIndex 1 scenarioPoints Metric.L2 = .ok idx ∧
      SearchKnn idx scenarioQuery 2 = .ok (I, Dst) ∧
      I.row 0 = [0, 1] ∧ Dst.row 0 = [0, 1] := by
  refine ⟨⟨by decide, by decide, rfl, by decide, by decide⟩, ?_⟩
  obtain ⟨idx, I, Dst, hb, hs, _, _, _, _, hrow⟩ :=
    SearchKnn_eq_bruteForce Metric.L2 1 scenarioPoints scenarioQuery 2
      (by decide) (by decide) rfl (by decide) (by decide)
  obtain ⟨h1, h2, _⟩ := hrow 0 (by decide)
  refine ⟨idx, I, Dst, hb, hs, h1.trans ?_, h2.trans ?_⟩
  · show indicesOf (bruteForceKnn Metric.L2 scenarioPoints scenarioQuery 2 0) = [0, 1]
    rw [scenario_bruteForceKnn]
    rfl
  · show distancesOf (bruteForceKnn Metric.L2 scenarioPoints scenarioQuery 2 0) = [0, 1]
    rw [scenario_bruteForceKnn]
    rfl

/-- Witness of C3: the radius scenario of section 8 (`L2`, query `(0,0)`, radius 1) has a
well-formed `row_splits` whose single range holds 3 entries. -/
theorem SearchRadius_ragged_witness :
    ∃ idx, BuildIndex 1 scenarioPoints Metric.L2 = .ok idx ∧
      (∃ res, SearchRadius idx scenarioQuery (fun _ => 1) = .ok res ∧
        RaggedShape 1 res ∧ res.2.2.getD 1 0 = res.2.2.getD 0 0 + 3) ∧
      (∃ res, SearchRadiusFixed idx scenarioQuery 1 = .ok res ∧
        RaggedShape 1 res ∧ res.2.2.getD 1 0 = res.2.2.getD 0 0 + 3) := by
  have hb := BuildIndex_ok 1 scenarioPoints Metric.L2 (by decide) (by decide)
  obtain ⟨⟨r1, a1, b1, c1⟩, ⟨r2, a2, b2, c2⟩⟩ :=
    SearchRadius_ragged Metric.L2 1 scenarioPoints scenarioQuery _ hb rfl (fun _ => 1)
      (fun _ _ => zero_le_one) 1 zero_le_one
  have e := congrArg List.length scenario_bruteForceRadius
  refine ⟨_, hb, ⟨r1, a1, b1, ?_⟩, ⟨r2, a2, b2, ?_⟩⟩
  · rw [(c1 0 (by decide)).1, e]; rfl
  · rw [(c2 0 (by decide)).1, e]; rfl

/-- Witness of C4: the hybrid scenario of section 8 (`L2`, query `(0,0)`, radius 1/2,
`max_knn = 2`) gives indices `[0, -1]` and distances `[0, +infinity]`. -/
theorem HybridSearch_rows_witness :
    ∃ idx I Dst, BuildIndex 1 scenarioPoints Metric.L2 = .ok idx ∧
      HybridSearch idx scenarioQuery (1 / 2) 2 = .ok (I, Dst) ∧
      I.row 0 = [0, -1] ∧
      Dst.row 0 = [SlotDistance.finite 0, SlotDistance.infinity] := by
  have hb := BuildIndex_ok 1 scenarioPoints Metric.L2 (by decide) (by decide)
  obtain ⟨I, Dst, hs, _, _, _, _, hrow⟩ :=
    HybridSearch_rows Metric.L2 1 scenarioPoints scenarioQuery _ hb rfl (1 / 2)
      (by norm_num) 2 (by decide)
  obtain ⟨h1, h2, _⟩ := hrow 0 (by decide)
  refine ⟨_, I, Dst, hb, hs, h1.trans ?_, h2.trans ?_⟩
  · show indicesOf (bruteForceHybrid Metric.L2 scenarioPoints scenarioQuery (1 / 2) 2 0) ++
      List.replicate (2 - (bruteForceHybrid Metric.L2 scenarioPoints scenarioQuery
        (1 / 2) 2 0).length) SENTINEL_INDEX = [0, -1]
    rw [scenario_bruteForceHybrid]
    rfl
  · show (bruteForceHybrid Metric.L2 scenarioPoints scenarioQuery (1 / 2) 2 0).map
        (fun c => SlotDistance.finite c.distance) ++
      List.replicate (2 - (bruteForceHybrid Metric.L2 scenarioPoints scenarioQuery
        (1 / 2) 2 0).length) SlotDistance.infinity =
        [SlotDistance.finite 0, SlotDistance.infinity]
    rw [scenario_bruteForceHybrid]
    rfl

end Open3D
